import Mathlib

/-!
Verification development for the ox_mon repository.

The directory-watch archiver (module `ox_mon.triggers.file_triggers`) is not
present in the source tree, only its tests and callers are; its data model and
operations below are therefore modelled from the specification (sections 2-4
and 6-8 of the spec), faithful to the spec's words.  The command-line harness
(`ox_mon/ui/cmd_line.py`), the checker interface (`ox_mon/common/interface.py`),
the file checker (`ox_mon/checking/file_checker.py`) and the AWS helpers
(`ox_mon/security/awshelpers.py`) are present in the source tree and are
embedded directly from the code.
-/

namespace OxMon

/-! ## ContentHasher (modelled from the spec, section 4.1) -/

/-- Modelled from the spec: a ContentFingerprint is a deterministic digest of a
file's full byte content; two files with byte-identical content always produce
the same fingerprint and collisions are assumed impossible (spec section 3).
Since the spec makes the digest collision-free by assumption, it is idealized
here as an injective wrapper around the content itself; any injective digest is
observationally equivalent for the stated properties.  The hashing code itself
is absent from the source tree. -/
structure Fingerprint where
  digest : String
deriving DecidableEq, Repr

/-- Modelled from the spec: ContentHasher maps the full byte content of a file
to its fingerprint (pure function, no side effects). -/
def contentFingerprint (content : String) : Fingerprint := ⟨content⟩

/-- Modelled from the spec: the stable textual encoding of a fingerprint,
suitable for use as a directory name (spec section 4.1). -/
def fpText (f : Fingerprint) : String := f.digest

/-- The archive subdirectory name used for a given content. -/
def entryName (content : String) : String := fpText (contentFingerprint content)

theorem entryName_def (c : String) : entryName c = c := rfl

/-! ## ArchiveStore (modelled from the spec, sections 3, 4.2 and 6) -/

/-- Modelled from the spec: an ArchiveEntry holds the stored blob
(`main.data`, the exact file bytes) and the append-only provenance log
(`names.txt`, one observation per line naming the relative path that produced
this fingerprint). -/
structure ArchiveEntry where
  mainData : String
  namesTxt : List String
deriving DecidableEq, Repr

/-- Modelled from the spec: the archive root holds one subdirectory per
distinct fingerprint ever observed, named by the fingerprint's textual
encoding.  It is modelled as an association list from subdirectory name to
entry. -/
abbrev Archive : Type := List (String × ArchiveEntry)

/-- The freshly created, empty archive root. -/
def emptyArchive : Archive := []

/-- Look up the archive entry stored under subdirectory name `k`. -/
def lookupEntry : Archive → String → Option ArchiveEntry
  | [], _ => none
  | (k₀, e) :: rest, k => if k₀ = k then some e else lookupEntry rest k

/-- Replace the entry stored under subdirectory name `k`, leaving the archive
unchanged if `k` is absent. -/
def setEntry : Archive → String → ArchiveEntry → Archive
  | [], _, _ => []
  | (k₀, e₀) :: rest, k, e =>
      if k₀ = k then (k₀, e) :: rest else (k₀, e₀) :: setEntry rest k e

/-- Modelled from the spec: `ensure_and_record(fingerprint, content,
observed_path)` idempotently creates the archive subdirectory for the
fingerprint if absent, writes `content` as the blob (overwrite-safe), and
appends one record naming `observed_path` to the provenance log
(spec section 4.2).  An already existing subdirectory is treated as success:
the blob is (re)written and the observation appended. -/
def ensureAndRecord (ar : Archive) (f : Fingerprint) (content path : String) :
    Archive :=
  match lookupEntry ar (fpText f) with
  | none => ar ++ [(fpText f, ⟨content, [path]⟩)]
  | some e => setEntry ar (fpText f) ⟨content, e.namesTxt ++ [path]⟩

/-! ## Basic lemmas about the archive association list -/

theorem lookupEntry_append (ar₁ ar₂ : Archive) (k : String) :
    lookupEntry (ar₁ ++ ar₂) k =
      match lookupEntry ar₁ k with
      | some e => some e
      | none => lookupEntry ar₂ k := by
  induction ar₁ with
  | nil => simp [lookupEntry]
  | cons kv rest ih =>
      obtain ⟨k₀, e₀⟩ := kv
      by_cases h : k₀ = k <;> simp [lookupEntry, h, ih]

theorem lookupEntry_setEntry_self (ar : Archive) (k : String)
    (e e₀ : ArchiveEntry) (h : lookupEntry ar k = some e₀) :
    lookupEntry (setEntry ar k e) k = some e := by
  induction ar with
  | nil => simp [lookupEntry] at h
  | cons kv rest ih =>
      obtain ⟨k₁, e₁⟩ := kv
      by_cases hk : k₁ = k
      · simp [setEntry, lookupEntry, hk]
      · simp [lookupEntry, hk] at h
        simp [setEntry, lookupEntry, hk, ih h]

theorem lookupEntry_setEntry_ne (ar : Archive) (k k₂ : String)
    (e : ArchiveEntry) (h : k₂ ≠ k) :
    lookupEntry (setEntry ar k e) k₂ = lookupEntry ar k₂ := by
  induction ar with
  | nil => simp [setEntry]
  | cons kv rest ih =>
      obtain ⟨k₁, e₁⟩ := kv
      by_cases hk : k₁ = k
      · subst hk
        simp [setEntry, lookupEntry, Ne.symm h]
      · simp [setEntry, lookupEntry, hk, ih]

theorem setEntry_map_fst (ar : Archive) (k : String) (e : ArchiveEntry) :
    (setEntry ar k e).map Prod.fst = ar.map Prod.fst := by
  induction ar with
  | nil => simp [setEntry]
  | cons kv rest ih =>
      obtain ⟨k₁, e₁⟩ := kv
      by_cases hk : k₁ = k <;> simp [setEntry, hk, ih]

theorem mem_setEntry (ar : Archive) (k : String) (e : ArchiveEntry)
    (kv : String × ArchiveEntry) (h : kv ∈ setEntry ar k e) :
    kv ∈ ar ∨ kv = (k, e) := by
  induction ar with
  | nil => simp [setEntry] at h
  | cons kv₁ rest ih =>
      obtain ⟨k₁, e₁⟩ := kv₁
      by_cases hk : k₁ = k
      · subst hk
        simp [setEntry] at h
        rcases h with h | h
        · right; simp [h]
        · left; simp [h]
      · simp [setEntry, hk] at h
        rcases h with h | h
        · left; simp [h]
        · rcases ih h with h₂ | h₂
          · left; simp [h₂]
          · right; exact h₂

theorem lookupEntry_none_iff (ar : Archive) (k : String) :
    lookupEntry ar k = none ↔ k ∉ ar.map Prod.fst := by
  induction ar with
  | nil => simp [lookupEntry]
  | cons kv rest ih =>
      obtain ⟨k₁, e₁⟩ := kv
      by_cases hk : k₁ = k
      · subst hk
        simp [lookupEntry]
      · simp [lookupEntry, hk, ih, Ne.symm hk]

theorem lookupEntry_mem (ar : Archive) (k : String) (e : ArchiveEntry)
    (h : lookupEntry ar k = some e) : (k, e) ∈ ar := by
  induction ar with
  | nil => simp [lookupEntry] at h
  | cons kv rest ih =>
      obtain ⟨k₁, e₁⟩ := kv
      by_cases hk : k₁ = k
      · subst hk
        simp [lookupEntry] at h
        simp [h]
      · simp [lookupEntry, hk] at h
        exact List.mem_cons_of_mem _ (ih h)

theorem lookupEntry_isSome_of_mem (ar : Archive) (kv : String × ArchiveEntry)
    (h : kv ∈ ar) : (lookupEntry ar kv.1).isSome := by
  induction ar with
  | nil => simp at h
  | cons kv₁ rest ih =>
      obtain ⟨k₁, e₁⟩ := kv₁
      by_cases hk : k₁ = kv.1
      · simp [lookupEntry, hk]
      · rcases List.mem_cons.mp h with h₂ | h₂
        · rw [h₂] at hk
          simp at hk
        · simp [lookupEntry, hk, ih h₂]

/-! ## ScanLoop and DirectoryWalker (modelled from the spec, sections 4.3-4.4) -/

/-- Modelled from the spec: one attempted observation in a scan cycle, as a
pair of the relative path and the outcome of reading the file; `none` records
a TransientObservationError (the file vanished or became unreadable between
listing and reading, spec section 7). -/
abbrev Observation : Type := String × Option String

/-- Modelled from the spec: the sequence of observations one scan cycle makes
while traversing the watched tree. -/
abbrev Snapshot : Type := List Observation

/-- Modelled from the spec: how the scan loop routes one observation.  A
vanished file is silently skipped for the current cycle; a successful read is
fingerprinted and passed to `ensure_and_record` with its relative path
(spec section 4.4, steps 2-3). -/
def stepObs (ar : Archive) (obs : Observation) : Archive :=
  match obs.2 with
  | none => ar
  | some c => ensureAndRecord ar (contentFingerprint c) c obs.1

/-- Modelled from the spec: one scan cycle processes every observation of its
snapshot in order, skipping vanished entries. -/
def runCycle (ar : Archive) (snap : Snapshot) : Archive :=
  snap.foldl stepObs ar

/-- Modelled from the spec: consecutive scan cycles; all effects of cycle N
are complete before cycle N+1 (spec section 5). -/
def runCycles (ar : Archive) (snaps : List Snapshot) : Archive :=
  snaps.foldl runCycle ar

/-- Modelled from the spec: bounded mode of the scan loop.  The first argument
is the remaining-cycles counter, decremented each cycle; the loop halts when
it reaches zero.  The second numeric argument counts the cycles already
executed; `snaps i` is what traversal observes on the i-th cycle.  Returns the
number of executed cycles together with the final archive
(spec sections 4.4 and 9). -/
def runLoop (snaps : Nat → Snapshot) : Nat → Nat → Archive → Nat × Archive
  | 0, done, ar => (done, ar)
  | remaining + 1, done, ar =>
      runLoop snaps remaining (done + 1) (runCycle ar (snaps done))

/-- Modelled from the spec: the watched subtree at one instant, as a tree of
named regular files and subdirectories (DirectoryWalker input). -/
inductive FsTree where
  | file (content : String)
  | dir (entries : List (String × FsTree))

/-- Modelled from the spec: DirectoryWalker enumerates every regular file
reachable under the given directory entries at the moment of traversal,
returning (relative path, content) pairs; files inside a subdirectory get the
subdirectory name as a path prefix.  Each traversal is a pure function of the
tree, hence fresh and independent of previous cycles (spec section 4.3). -/
def walkEntries : List (String × FsTree) → List (String × String)
  | [] => []
  | (name, FsTree.file c) :: rest => (name, c) :: walkEntries rest
  | (name, FsTree.dir sub) :: rest =>
      (walkEntries sub).map (fun pc => (name ++ "/" ++ pc.1, pc.2)) ++
        walkEntries rest

/-- Modelled from the spec: a cycle whose reads all succeed observes exactly
the files the walker returned. -/
def readAll (files : List (String × String)) : Snapshot :=
  files.map (fun pc => (pc.1, some pc.2))

/-! ## Well-formedness invariant of the archive -/

/-- A well-formed archive names every subdirectory by the textual encoding of
the fingerprint of its blob, and has no duplicate subdirectory names. -/
def wellFormed (ar : Archive) : Prop :=
  (∀ kv ∈ ar, kv.1 = entryName kv.2.mainData) ∧ (ar.map Prod.fst).Nodup

instance (ar : Archive) : Decidable (wellFormed ar) := by
  unfold wellFormed
  infer_instance

theorem wellFormed_empty : wellFormed emptyArchive := by
  constructor
  · intro kv h
    simp [emptyArchive] at h
  · simp [emptyArchive]

/-- The provenance log currently recorded for content `X` (empty when no entry
exists yet). -/
def provList (ar : Archive) (X : String) : List String :=
  ((lookupEntry ar (entryName X)).map ArchiveEntry.namesTxt).getD []

/-- The successful observations of content `X` in one snapshot, in order. -/
def obsOfContent (X : String) (snap : Snapshot) : List String :=
  snap.filterMap (fun obs =>
    match obs.2 with
    | none => none
    | some c => if c = X then some obs.1 else none)

/-! ## Lemmas about `ensureAndRecord` -/

theorem ensureAndRecord_lookup_self (ar : Archive) (f : Fingerprint)
    (c p : String) :
    lookupEntry (ensureAndRecord ar f c p) (fpText f) =
      some ⟨c, (((lookupEntry ar (fpText f)).map
        ArchiveEntry.namesTxt).getD []) ++ [p]⟩ := by
  unfold ensureAndRecord
  cases h : lookupEntry ar (fpText f) with
  | none =>
      rw [lookupEntry_append, h]
      simp [lookupEntry]
  | some e =>
      rw [lookupEntry_setEntry_self ar (fpText f) _ e h]
      simp

theorem ensureAndRecord_lookup_ne (ar : Archive) (f : Fingerprint)
    (c p k : String) (h : k ≠ fpText f) :
    lookupEntry (ensureAndRecord ar f c p) k = lookupEntry ar k := by
  unfold ensureAndRecord
  cases h₀ : lookupEntry ar (fpText f) with
  | none =>
      rw [lookupEntry_append]
      cases h₁ : lookupEntry ar k with
      | none => simp [lookupEntry, Ne.symm h]
      | some e => simp
  | some e => exact lookupEntry_setEntry_ne ar (fpText f) k _ h

theorem ensureAndRecord_isSome (ar : Archive) (f : Fingerprint)
    (c p k : String) (h : (lookupEntry ar k).isSome) :
    (lookupEntry (ensureAndRecord ar f c p) k).isSome := by
  by_cases hk : k = fpText f
  · subst hk
    rw [ensureAndRecord_lookup_self]
    simp
  · rw [ensureAndRecord_lookup_ne ar f c p k hk]
    exact h

theorem ensureAndRecord_wellFormed (ar : Archive) (c p : String)
    (h : wellFormed ar) :
    wellFormed (ensureAndRecord ar (contentFingerprint c) c p) := by
  obtain ⟨hname, hnodup⟩ := h
  unfold ensureAndRecord
  cases h₀ : lookupEntry ar (fpText (contentFingerprint c)) with
  | none =>
      constructor
      · intro kv hkv
        rcases List.mem_append.mp hkv with hmem | hmem
        · exact hname kv hmem
        · simp at hmem
          subst hmem
          rfl
      · rw [List.map_append]
        apply List.Nodup.append hnodup (by simp)
        intro k hk₁ hk₂
        simp at hk₂
        subst hk₂
        exact ((lookupEntry_none_iff ar _).mp h₀) hk₁
  | some e =>
      constructor
      · intro kv hkv
        rcases mem_setEntry ar _ _ kv hkv with hmem | hmem
        · exact hname kv hmem
        · subst hmem
          rfl
      · rw [setEntry_map_fst]
        exact hnodup

/-- In a well-formed archive, the entry found under the name for content `X`
stores exactly `X` as its blob. -/
theorem wellFormed_lookup_mainData (ar : Archive) (X : String)
    (e : ArchiveEntry) (hwf : wellFormed ar)
    (h : lookupEntry ar (entryName X) = some e) : e.mainData = X := by
  have hmem := lookupEntry_mem ar (entryName X) e h
  have := hwf.1 _ hmem
  simp only [entryName_def] at this
  exact this.symm

/-! ## Lemmas about scan cycles -/

theorem stepObs_wellFormed (ar : Archive) (obs : Observation)
    (h : wellFormed ar) : wellFormed (stepObs ar obs) := by
  unfold stepObs
  cases obs.2 with
  | none => exact h
  | some c => exact ensureAndRecord_wellFormed ar c obs.1 h

theorem runCycle_wellFormed (ar : Archive) (snap : Snapshot)
    (h : wellFormed ar) : wellFormed (runCycle ar snap) := by
  induction snap generalizing ar with
  | nil => exact h
  | cons obs rest ih =>
      rw [runCycle, List.foldl_cons]
      exact ih _ (stepObs_wellFormed ar obs h)

theorem runCycles_wellFormed (ar : Archive) (snaps : List Snapshot)
    (h : wellFormed ar) : wellFormed (runCycles ar snaps) := by
  induction snaps generalizing ar with
  | nil => exact h
  | cons snap rest ih =>
      rw [runCycles, List.foldl_cons]
      exact ih _ (runCycle_wellFormed ar snap h)

theorem provList_stepObs (ar : Archive) (obs : Observation) (X : String) :
    provList (stepObs ar obs) X =
      provList ar X ++ obsOfContent X [obs] := by
  unfold stepObs obsOfContent
  cases hobs : obs.2 with
  | none => simp [hobs]
  | some c =>
      by_cases hc : c = X
      · subst hc
        simp only [provList]
        rw [show entryName c = fpText (contentFingerprint c) from rfl,
          ensureAndRecord_lookup_self]
        simp [hobs]
      · simp only [provList]
        rw [ensureAndRecord_lookup_ne]
        · simp [hobs, hc]
        · simp only [entryName_def]
          exact fun hax => hc (by simpa [fpText, contentFingerprint] using hax.symm)

theorem obsOfContent_append (X : String) (s₁ s₂ : Snapshot) :
    obsOfContent X (s₁ ++ s₂) = obsOfContent X s₁ ++ obsOfContent X s₂ := by
  unfold obsOfContent
  rw [List.filterMap_append]

theorem provList_runCycle (ar : Archive) (snap : Snapshot) (X : String) :
    provList (runCycle ar snap) X = provList ar X ++ obsOfContent X snap := by
  induction snap generalizing ar with
  | nil => simp [runCycle, obsOfContent]
  | cons obs rest ih =>
      rw [runCycle, List.foldl_cons, show List.foldl stepObs (stepObs ar obs)
        rest = runCycle (stepObs ar obs) rest from rfl, ih,
        provList_stepObs,
        show obs :: rest = [obs] ++ rest from rfl, obsOfContent_append,
        List.append_assoc]

theorem provList_runCycles (ar : Archive) (snaps : List Snapshot)
    (X : String) :
    provList (runCycles ar snaps) X =
      provList ar X ++ snaps.flatMap (obsOfContent X) := by
  induction snaps generalizing ar with
  | nil => simp [runCycles]
  | cons snap rest ih =>
      rw [runCycles, List.foldl_cons, show List.foldl runCycle
        (runCycle ar snap) rest = runCycles (runCycle ar snap) rest from rfl,
        ih, provList_runCycle, List.flatMap_cons, List.append_assoc]

theorem stepObs_isSome (ar : Archive) (obs : Observation) (k : String)
    (h : (lookupEntry ar k).isSome) :
    (lookupEntry (stepObs ar obs) k).isSome := by
  unfold stepObs
  cases obs.2 with
  | none => exact h
  | some c => exact ensureAndRecord_isSome ar _ c obs.1 k h

theorem runCycle_isSome (ar : Archive) (snap : Snapshot) (k : String)
    (h : (lookupEntry ar k).isSome) :
    (lookupEntry (runCycle ar snap) k).isSome := by
  induction snap generalizing ar with
  | nil => exact h
  | cons obs rest ih =>
      rw [runCycle, List.foldl_cons]
      exact ih _ (stepObs_isSome ar obs k h)

theorem runCycles_isSome (ar : Archive) (snaps : List Snapshot) (k : String)
    (h : (lookupEntry ar k).isSome) :
    (lookupEntry (runCycles ar snaps) k).isSome := by
  induction snaps generalizing ar with
  | nil => exact h
  | cons snap rest ih =>
      rw [runCycles, List.foldl_cons]
      exact ih _ (runCycle_isSome ar snap k h)

/-- Key stability statement: in a well-formed archive, further scan cycles
keep every existing entry in place and never change its blob. -/
theorem runCycles_blob_stable (ar : Archive) (snaps : List Snapshot)
    (k : String) (e : ArchiveEntry) (hwf : wellFormed ar)
    (h : lookupEntry ar k = some e) :
    ∃ e₂, lookupEntry (runCycles ar snaps) k = some e₂ ∧
      e₂.mainData = e.mainData := by
  have hk : k = entryName e.mainData := hwf.1 _ (lookupEntry_mem ar k e h)
  have hsome : (lookupEntry (runCycles ar snaps) k).isSome :=
    runCycles_isSome ar snaps k (by simp [h])
  obtain ⟨e₂, he₂⟩ := Option.isSome_iff_exists.mp hsome
  refine ⟨e₂, he₂, ?_⟩
  have hwf₂ := runCycles_wellFormed ar snaps hwf
  have := wellFormed_lookup_mainData (runCycles ar snaps) e.mainData e₂ hwf₂
    (by rw [← hk]; exact he₂)
  exact this

/-- If some processed snapshot successfully observed content `c` at path `p`,
the final provenance log for `c` contains `p`. -/
theorem mem_provList_of_obs (ar : Archive) (snaps : List Snapshot)
    (s : Snapshot) (p c : String) (hs : s ∈ snaps) (hp : (p, some c) ∈ s) :
    p ∈ provList (runCycles ar snaps) c := by
  rw [provList_runCycles]
  refine List.mem_append.mpr (Or.inr ?_)
  refine List.mem_flatMap.mpr ⟨s, hs, ?_⟩
  unfold obsOfContent
  refine List.mem_filterMap.mpr ⟨(p, some c), hp, ?_⟩
  simp

/-- A nonempty provenance log means the entry exists. -/
theorem lookupEntry_isSome_of_provList_ne (ar : Archive) (c : String)
    (h : provList ar c ≠ []) : (lookupEntry ar (entryName c)).isSome := by
  unfold provList at h
  cases h₀ : lookupEntry ar (entryName c) with
  | none => rw [h₀] at h; simp at h
  | some e => simp

/-- In a well-formed archive, each subdirectory name occurs at most once, so an
existing entry is the unique one under its name. -/
theorem countP_key_of_lookup (ar : Archive) (k : String) (e : ArchiveEntry)
    (hnodup : (ar.map Prod.fst).Nodup) (h : lookupEntry ar k = some e) :
    ar.countP (fun kv => kv.1 == k) = 1 := by
  induction ar with
  | nil => simp [lookupEntry] at h
  | cons kv rest ih =>
      obtain ⟨k₁, e₁⟩ := kv
      simp only [List.map_cons, List.nodup_cons] at hnodup
      by_cases hk : k₁ = k
      · subst hk
        have hzero : rest.countP (fun kv => kv.1 == k₁) = 0 := by
          rw [List.countP_eq_zero]
          intro kv hkv
          simp only [beq_iff_eq]
          intro hfst
          exact hnodup.1 (hfst ▸ List.mem_map_of_mem Prod.fst hkv)
        rw [List.countP_cons, hzero]
        simp
      · simp only [lookupEntry, if_neg hk] at h
        rw [List.countP_cons, ih hnodup.2 h]
        simp [hk]

/-- When the lookup succeeds, the provenance log is the entry's `names.txt`. -/
theorem provList_eq_namesTxt (ar : Archive) (c : String) (e : ArchiveEntry)
    (h : lookupEntry ar (entryName c) = some e) :
    provList ar c = e.namesTxt := by
  unfold provList
  rw [h]
  rfl

/-- A path successfully observed with content `c` during a cycle ends up in
the provenance log of `c`. -/
theorem mem_obsOfContent_of_mem (snap : Snapshot) (p c : String)
    (hp : (p, some c) ∈ snap) : p ∈ obsOfContent c snap := by
  unfold obsOfContent
  refine List.mem_filterMap.mpr ⟨(p, some c), hp, ?_⟩
  simp

/-- After a cycle that successfully observed content `c` at path `p` over a
well-formed archive, the entry named by the fingerprint of `c` exists, its
blob is `c`, and its provenance log names `p`. -/
theorem runCycle_entry_of_obs (ar : Archive) (snap : Snapshot) (p c : String)
    (hwf : wellFormed ar) (hp : (p, some c) ∈ snap) :
    ∃ e, lookupEntry (runCycle ar snap) (entryName c) = some e ∧
      e.mainData = c ∧ p ∈ e.namesTxt := by
  have hmem : p ∈ provList (runCycle ar snap) c := by
    rw [provList_runCycle]
    exact List.mem_append.mpr (Or.inr (mem_obsOfContent_of_mem snap p c hp))
  have hne : provList (runCycle ar snap) c ≠ [] :=
    List.ne_nil_of_mem hmem
  obtain ⟨e, he⟩ := Option.isSome_iff_exists.mp
    (lookupEntry_isSome_of_provList_ne _ c hne)
  refine ⟨e, he, ?_, ?_⟩
  · exact wellFormed_lookup_mainData _ c e (runCycle_wellFormed ar snap hwf) he
  · rw [← provList_eq_namesTxt _ c e he]
    exact hmem

/-- Same as `runCycle_entry_of_obs`, for an observation made in any one of a
sequence of processed cycles. -/
theorem runCycles_entry_of_obs (ar : Archive) (snaps : List Snapshot)
    (s : Snapshot) (p c : String) (hwf : wellFormed ar) (hs : s ∈ snaps)
    (hp : (p, some c) ∈ s) :
    ∃ e, lookupEntry (runCycles ar snaps) (entryName c) = some e ∧
      e.mainData = c ∧ p ∈ e.namesTxt := by
  have hmem : p ∈ provList (runCycles ar snaps) c :=
    mem_provList_of_obs ar snaps s p c hs hp
  have hne : provList (runCycles ar snaps) c ≠ [] :=
    List.ne_nil_of_mem hmem
  obtain ⟨e, he⟩ := Option.isSome_iff_exists.mp
    (lookupEntry_isSome_of_provList_ne _ c hne)
  refine ⟨e, he, ?_, ?_⟩
  · exact wellFormed_lookup_mainData _ c e
      (runCycles_wellFormed ar snaps hwf) he
  · rw [← provList_eq_namesTxt _ c e he]
    exact hmem

/-! ## Lemmas about the walker and the bounded loop -/

theorem walkEntries_append (l₁ l₂ : List (String × FsTree)) :
    walkEntries (l₁ ++ l₂) = walkEntries l₁ ++ walkEntries l₂ := by
  induction l₁ with
  | nil => simp [walkEntries]
  | cons hd rest ih =>
      obtain ⟨name, t⟩ := hd
      cases t with
      | file c => simp [walkEntries, ih]
      | dir sub => simp [walkEntries, ih]

theorem runLoop_eq (snaps : Nat → Snapshot) (n : Nat) :
    ∀ (done : Nat) (ar : Archive),
      runLoop snaps n done ar =
        (done + n,
          runCycles ar ((List.range n).map (fun i => snaps (done + i)))) := by
  induction n with
  | zero => intro done ar; simp [runLoop, runCycles]
  | succ m ih =>
      intro done ar
      rw [runLoop, ih (done + 1) (runCycle ar (snaps done))]
      simp only [Prod.mk.injEq]
      refine ⟨by omega, ?_⟩
      rw [List.range_succ_eq_map, List.map_cons, List.map_map]
      simp only [runCycles]
      rw [List.foldl_cons]
      have harg : ((fun i => snaps (done + i)) ∘ Nat.succ) =
          (fun i => snaps (done + 1 + i)) := by
        funext i
        have h₂ : done + i.succ = done + 1 + i := by omega
        simp [Function.comp, h₂]
      rw [show snaps (done + 0) = snaps done by simp, harg]

theorem countP_observing_le_flatMap (X : String) (snaps : List Snapshot) :
    (snaps.countP (fun s => !(obsOfContent X s).isEmpty)) ≤
      (snaps.flatMap (obsOfContent X)).length := by
  induction snaps with
  | nil => simp
  | cons s rest ih =>
      rw [List.countP_cons, List.flatMap_cons, List.length_append]
      by_cases hobs : (obsOfContent X s).isEmpty
      · have hval : (!(obsOfContent X s).isEmpty) = false := by rw [hobs]; rfl
        rw [hval]
        simp only [Bool.false_eq_true, if_false]
        omega
      · simp only [Bool.not_eq_true] at hobs
        have hval : (!(obsOfContent X s).isEmpty) = true := by rw [hobs]; rfl
        rw [hval]
        simp only [if_true]
        have hne : obsOfContent X s ≠ [] := by
          intro hnil
          rw [hnil] at hobs
          simp at hobs
        have hlen : 1 ≤ (obsOfContent X s).length :=
          Nat.succ_le_of_lt (List.length_pos.mpr hne)
        omega

/-- Helper: starting from the empty archive root, the provenance log recorded
for content `X` is exactly the ordered concatenation of the successful
observations of `X` across all processed cycles. -/
theorem provList_from_empty (X : String) (snaps : List Snapshot) :
    provList (runCycles emptyArchive snaps) X =
      snaps.flatMap (obsOfContent X) := by
  rw [provList_runCycles]
  simp [provList, emptyArchive, lookupEntry]

/-! ## Claim theorems for the archiver -/

/-- C1: for every pair of watched files (same or different relative paths,
same or different scan cycles) whose byte content is identical, the archiver
maps both to the same single archive entry: one subdirectory under the archive
root named by the fingerprint's textual encoding, whose blob `main.data`
contains exactly those bytes. -/
theorem content_addressing_single_entry
    (snaps : List Snapshot) (s₁ s₂ : Snapshot) (p₁ p₂ c : String)
    (hs₁ : s₁ ∈ snaps) (hs₂ : s₂ ∈ snaps)
    (hp₁ : (p₁, some c) ∈ s₁) (hp₂ : (p₂, some c) ∈ s₂) :
    ∃ e, lookupEntry (runCycles emptyArchive snaps)
        (fpText (contentFingerprint c)) = some e ∧
      e.mainData = c ∧ p₁ ∈ e.namesTxt ∧ p₂ ∈ e.namesTxt ∧
      (runCycles emptyArchive snaps).countP
        (fun kv => kv.1 == fpText (contentFingerprint c)) = 1 := by
  obtain ⟨e, he, hmain, hmem₁⟩ :=
    runCycles_entry_of_obs emptyArchive snaps s₁ p₁ c wellFormed_empty hs₁ hp₁
  obtain ⟨e₂, he₂, hmain₂, hmem₂⟩ :=
    runCycles_entry_of_obs emptyArchive snaps s₂ p₂ c wellFormed_empty hs₂ hp₂
  have hee : e = e₂ := by
    have h₃ := he.symm.trans he₂
    injection h₃
  refine ⟨e, he, hmain, hmem₁, ?_, ?_⟩
  · rw [hee]
    exact hmem₂
  · exact countP_key_of_lookup _ _ e
      (runCycles_wellFormed emptyArchive snaps wellFormed_empty).2 he

/-- Witness for C1 on the spec's test scenario: `test.txt` in cycle 1 and
`sub/test.txt` in cycle 2, both with content "test.txt". -/
theorem content_addressing_single_entry_witness :
    ∃ e, lookupEntry (runCycles emptyArchive
        [[("test.txt", some "test.txt")], [("sub/test.txt", some "test.txt")]])
        (fpText (contentFingerprint "test.txt")) = some e ∧
      e.mainData = "test.txt" ∧ "test.txt" ∈ e.namesTxt ∧
      "sub/test.txt" ∈ e.namesTxt ∧
      (runCycles emptyArchive
        [[("test.txt", some "test.txt")], [("sub/test.txt", some "test.txt")]]).countP
        (fun kv => kv.1 == fpText (contentFingerprint "test.txt")) = 1 :=
  content_addressing_single_entry
    [[("test.txt", some "test.txt")], [("sub/test.txt", some "test.txt")]]
    [("test.txt", some "test.txt")] [("sub/test.txt", some "test.txt")]
    "test.txt" "sub/test.txt" "test.txt"
    (by simp) (by simp) (by simp) (by simp)

/-- C2: an archive entry, once created, is never deleted and its blob is never
rewritten to different content by any later activity of the watcher; in
particular deleting or modifying the source file (whose effect is only on
what later cycles observe) leaves the entry and its blob unchanged. -/
theorem archive_entry_immutable
    (ar : Archive) (snaps : List Snapshot) (k : String) (e : ArchiveEntry)
    (hwf : wellFormed ar) (h : lookupEntry ar k = some e) :
    (∃ e₂, lookupEntry (runCycles ar snaps) k = some e₂ ∧
      e₂.mainData = e.mainData) ∧
    (∀ k₂, (lookupEntry ar k₂).isSome →
      (lookupEntry (runCycles ar snaps) k₂).isSome) := by
  constructor
  · exact runCycles_blob_stable ar snaps k e hwf h
  · intro k₂ h₂
    exact runCycles_isSome ar snaps k₂ h₂

/-- Witness for C2: the entry for content "test data" survives, blob intact,
through a cycle where its source path vanished and a cycle observing other
content. -/
theorem archive_entry_immutable_witness :
    (∃ e₂, lookupEntry
        (runCycles [("test data", ⟨"test data", ["sub/test.txt"]⟩)]
          [[("sub/test.txt", none)], [("other.txt", some "test.txt")]])
        "test data" = some e₂ ∧ e₂.mainData = "test data") ∧
    (∀ k₂, (lookupEntry [("test data", ⟨"test data", ["sub/test.txt"]⟩)]
        k₂).isSome →
      (lookupEntry
        (runCycles [("test data", ⟨"test data", ["sub/test.txt"]⟩)]
          [[("sub/test.txt", none)], [("other.txt", some "test.txt")]])
        k₂).isSome) :=
  archive_entry_immutable [("test data", ⟨"test data", ["sub/test.txt"]⟩)]
    [[("sub/test.txt", none)], [("other.txt", some "test.txt")]]
    "test data" ⟨"test data", ["sub/test.txt"]⟩
    (by constructor
        · intro kv hkv
          simp at hkv
          rw [hkv]
          rfl
        · simp)
    (by simp [lookupEntry])

/-- C3: the provenance log for a fingerprint only grows, with one record
appended per observing cycle per observed path with that content, never
deduplicated: starting from an empty archive the log is exactly the ordered
concatenation of all successful observations of that content, after N
observing cycles it has at least N records, and in the two-cycle scenario
(content X observed once at path p₁ in cycle 1 and once at p₂ in cycle 2)
it holds exactly the two records [p₁, p₂]. -/
theorem provenance_accumulation (X : String) :
    (∀ snaps : List Snapshot,
      provList (runCycles emptyArchive snaps) X =
        snaps.flatMap (obsOfContent X)) ∧
    (∀ (snaps : List Snapshot) (N : Nat),
      N ≤ snaps.countP (fun s => !(obsOfContent X s).isEmpty) →
      N ≤ (provList (runCycles emptyArchive snaps) X).length) ∧
    (∀ (s₁ s₂ : Snapshot) (p₁ p₂ : String),
      obsOfContent X s₁ = [p₁] → obsOfContent X s₂ = [p₂] →
      provList (runCycles emptyArchive [s₁, s₂]) X = [p₁, p₂]) := by
  refine ⟨provList_from_empty X, ?_, ?_⟩
  · intro snaps N hN
    rw [provList_from_empty X snaps]
    exact le_trans hN (countP_observing_le_flatMap X snaps)
  · intro s₁ s₂ p₁ p₂ h₁ h₂
    rw [provList_from_empty X [s₁, s₂]]
    simp [h₁, h₂]

/-- Witness for C3 on the spec's scenario: content "test.txt" observed at
`test.txt` in cycle 1 and at `sub/test.txt` in cycle 2 yields exactly the two
provenance records, in order. -/
theorem provenance_accumulation_witness :
    provList (runCycles emptyArchive
        [[("test.txt", some "test.txt")], [("sub/test.txt", some "test.txt")]])
      "test.txt" = ["test.txt", "sub/test.txt"] :=
  (provenance_accumulation "test.txt").2.2
    [("test.txt", some "test.txt")] [("sub/test.txt", some "test.txt")]
    "test.txt" "sub/test.txt" (by decide) (by decide)

/-- C4: a per-file failure never stops a scan cycle: a file that vanished
between listing and reading is silently skipped (processing the cycle is the
same as processing it without that entry), the cycle proceeds to the remaining
files, and files written afterwards are still archived. -/
theorem scan_loop_survives_vanishing
    (ar : Archive) (p : String) (s₁ s₂ : Snapshot) :
    runCycle ar (s₁ ++ (p, none) :: s₂) = runCycle ar (s₁ ++ s₂) ∧
    (wellFormed ar → ∀ q c, (q, some c) ∈ s₂ →
      ∃ e, lookupEntry (runCycle ar (s₁ ++ (p, none) :: s₂))
          (fpText (contentFingerprint c)) = some e ∧ e.mainData = c) := by
  constructor
  · unfold runCycle
    rw [List.foldl_append, List.foldl_append, List.foldl_cons,
      show stepObs (List.foldl stepObs ar s₁) (p, none) =
        List.foldl stepObs ar s₁ from rfl]
  · intro hwf q c hq
    obtain ⟨e, he, hmain, hname⟩ := runCycle_entry_of_obs ar
      (s₁ ++ (p, none) :: s₂) q c hwf
      (List.mem_append.mpr (Or.inr (List.mem_cons_of_mem _ hq)))
    exact ⟨e, he, hmain⟩

/-- Witness for C4: with `sub/test.txt` vanishing mid-cycle, the cycle equals
the one without it and still archives `other.txt` written after it. -/
theorem scan_loop_survives_vanishing_witness :
    (runCycle emptyArchive
        ([] ++ ("sub/test.txt", none) :: [("other.txt", some "test.txt")]) =
      runCycle emptyArchive ([] ++ [("other.txt", some "test.txt")])) ∧
    (∃ e, lookupEntry (runCycle emptyArchive
        ([] ++ ("sub/test.txt", none) :: [("other.txt", some "test.txt")]))
        (fpText (contentFingerprint "test.txt")) = some e ∧
      e.mainData = "test.txt") := by
  obtain ⟨h₁, h₂⟩ := scan_loop_survives_vanishing emptyArchive "sub/test.txt"
    [] [("other.txt", some "test.txt")]
  exact ⟨h₁, h₂ wellFormed_empty "other.txt" "test.txt" (by simp)⟩

/-- C5: each cycle's directory walk is a fresh traversal of the tree as it is
at that moment: a file written into a subdirectory created under the watch
root after the watcher started is enumerated (with the subdirectory as path
prefix), and every file the walk returns is archived by that cycle, without
any restart or re-registration. -/
theorem dynamic_subtree_discovery
    (entries sub : List (String × FsTree)) (d : String) (ar : Archive) :
    (∀ p c, (p, c) ∈ walkEntries sub →
      (d ++ "/" ++ p, c) ∈ walkEntries (entries ++ [(d, FsTree.dir sub)])) ∧
    (wellFormed ar → ∀ p c, (p, c) ∈ walkEntries entries →
      ∃ e, lookupEntry (runCycle ar (readAll (walkEntries entries)))
          (fpText (contentFingerprint c)) = some e ∧ e.mainData = c ∧
        p ∈ e.namesTxt) := by
  constructor
  · intro p c hp
    rw [walkEntries_append]
    refine List.mem_append.mpr (Or.inr ?_)
    show (d ++ "/" ++ p, c) ∈ walkEntries [(d, FsTree.dir sub)]
    unfold walkEntries
    refine List.mem_append.mpr (Or.inl ?_)
    exact List.mem_map.mpr ⟨(p, c), hp, rfl⟩
  · intro hwf p c hp
    have hobs : (p, some c) ∈ readAll (walkEntries entries) := by
      unfold readAll
      exact List.mem_map.mpr ⟨(p, c), hp, rfl⟩
    exact runCycle_entry_of_obs ar (readAll (walkEntries entries)) p c hwf hobs

/-- Witness for C5: a fresh subdirectory `sub` holding `test.txt` is walked
with prefix `sub/` and its file is archived in the next cycle. -/
theorem dynamic_subtree_discovery_witness :
    (("sub" ++ "/" ++ "test.txt", "test.txt") ∈
      walkEntries ([("test.txt", FsTree.file "test.txt")] ++
        [("sub", FsTree.dir [("test.txt", FsTree.file "test.txt")])])) ∧
    (∃ e, lookupEntry (runCycle emptyArchive
        (readAll (walkEntries [("test.txt", FsTree.file "test.txt")])))
        (fpText (contentFingerprint "test.txt")) = some e ∧
      e.mainData = "test.txt" ∧ "test.txt" ∈ e.namesTxt) := by
  obtain ⟨h₁, h₂⟩ := dynamic_subtree_discovery
    [("test.txt", FsTree.file "test.txt")]
    [("test.txt", FsTree.file "test.txt")] "sub" emptyArchive
  refine ⟨h₁ "test.txt" "test.txt" ?_, h₂ wellFormed_empty "test.txt"
    "test.txt" ?_⟩
  · unfold walkEntries
    simp
  · unfold walkEntries
    simp

/-- C6: `ensure_and_record` is idempotent with respect to entry creation:
a repeated call with the same fingerprint and content always succeeds (an
already existing entry directory is treated as success), leaves the entry's
blob equal to that content, changes nothing but appending one provenance
record, and touches no other entry. -/
theorem ensure_and_record_idempotent
    (ar : Archive) (f : Fingerprint) (c p₁ p₂ : String) :
    ∃ e₁, lookupEntry (ensureAndRecord ar f c p₁) (fpText f) = some e₁ ∧
      e₁.mainData = c ∧
      lookupEntry (ensureAndRecord (ensureAndRecord ar f c p₁) f c p₂)
        (fpText f) = some ⟨c, e₁.namesTxt ++ [p₂]⟩ ∧
      (∀ k, k ≠ fpText f →
        lookupEntry (ensureAndRecord (ensureAndRecord ar f c p₁) f c p₂) k =
          lookupEntry (ensureAndRecord ar f c p₁) k) := by
  refine ⟨⟨c, (((lookupEntry ar (fpText f)).map
      ArchiveEntry.namesTxt).getD []) ++ [p₁]⟩,
    ensureAndRecord_lookup_self ar f c p₁, rfl, ?_, ?_⟩
  · rw [ensureAndRecord_lookup_self (ensureAndRecord ar f c p₁) f c p₂,
      ensureAndRecord_lookup_self ar f c p₁]
    simp
  · intro k hk
    exact ensureAndRecord_lookup_ne (ensureAndRecord ar f c p₁) f c p₂ k hk

/-- Witness for C6: two observations of the same content at different paths,
starting from the empty archive; the second call only appends `p₂`, leaving
the blob and every other key untouched. -/
theorem ensure_and_record_idempotent_witness :
    ∃ e₁, lookupEntry (ensureAndRecord emptyArchive
        (contentFingerprint "test.txt") "test.txt" "test.txt")
        (fpText (contentFingerprint "test.txt")) = some e₁ ∧
      e₁.mainData = "test.txt" ∧
      lookupEntry (ensureAndRecord (ensureAndRecord emptyArchive
          (contentFingerprint "test.txt") "test.txt" "test.txt")
          (contentFingerprint "test.txt") "test.txt" "sub/test.txt")
        (fpText (contentFingerprint "test.txt")) =
        some ⟨"test.txt", e₁.namesTxt ++ ["sub/test.txt"]⟩ ∧
      (∀ k, k ≠ fpText (contentFingerprint "test.txt") →
        lookupEntry (ensureAndRecord (ensureAndRecord emptyArchive
            (contentFingerprint "test.txt") "test.txt" "test.txt")
            (contentFingerprint "test.txt") "test.txt" "sub/test.txt") k =
          lookupEntry (ensureAndRecord emptyArchive
            (contentFingerprint "test.txt") "test.txt" "test.txt") k) :=
  ensure_and_record_idempotent emptyArchive (contentFingerprint "test.txt")
    "test.txt" "test.txt" "sub/test.txt"

/-- C7: in bounded mode the scan loop executes exactly n scan cycles and then
stops: starting with a remaining-cycles counter of n (decremented each cycle,
halting at zero) it returns after exactly n executed cycles, having processed
precisely the snapshots of cycles 0 through n-1 in order. -/
theorem bounded_mode_exact_cycles
    (snaps : Nat → Snapshot) (n : Nat) (ar : Archive) :
    runLoop snaps n 0 ar = (n, runCycles ar ((List.range n).map snaps)) := by
  rw [runLoop_eq snaps n 0 ar]
  simp

/-! ## AWS helpers (embedded from src/ox_mon/security/awshelpers.py) -/

/-- Counting helper for the termination of `get_empty_rule_num`: once `s`
itself occurs in the list, strictly fewer elements lie at or above `s + 1`
than at or above `s`. -/
theorem countP_ge_succ_lt (s : Int) (l : List Int) (h : s ∈ l) :
    l.countP (fun x => decide (s + 1 ≤ x)) <
      l.countP (fun x => decide (s ≤ x)) := by
  induction l with
  | nil => simp at h
  | cons a rest ih =>
      rw [List.countP_cons, List.countP_cons]
      rcases List.mem_cons.mp h with h₁ | h₁
      · subst h₁
        have hmono : rest.countP (fun x => decide (s + 1 ≤ x)) ≤
            rest.countP (fun x => decide (s ≤ x)) := by
          apply List.countP_mono_left
          intro x _ hx
          simp only [decide_eq_true_eq] at hx ⊢
          omega
        simp only [decide_eq_true_eq]
        rw [if_neg (by omega), if_pos (by omega)]
        omega
      · have hstep : (if decide (s + 1 ≤ a) = true then 1 else 0) ≤
            (if decide (s ≤ a) = true then 1 else 0) := by
          by_cases ha : s + 1 ≤ a
          · rw [if_pos (by simpa using ha), if_pos (by simp; omega)]
          · rw [if_neg (by simpa using ha)]
            omega
        have := ih h₁
        omega

/-- Embedded from `awshelpers.get_empty_rule_num`: starting from `rule_start`,
step upward until reaching an integer that is not among the occupied rule
numbers (the keys of the `rule_nums` dict, modelled as a list). -/
def get_empty_rule_num (rule_start : Int) (rule_nums : List Int) : Int :=
  if h : rule_start ∈ rule_nums then
    get_empty_rule_num (rule_start + 1) rule_nums
  else
    rule_start
termination_by rule_nums.countP (fun x => decide (rule_start ≤ x))
decreasing_by
  exact countP_ge_succ_lt rule_start rule_nums h

/-- C9: `get_empty_rule_num(rule_start, rule_nums)` returns the smallest
integer that is at least `rule_start` and is not an occupied rule number. -/
theorem get_empty_rule_num_least (s : Int) (l : List Int) :
    s ≤ get_empty_rule_num s l ∧ get_empty_rule_num s l ∉ l ∧
      ∀ m : Int, s ≤ m → m ∉ l → get_empty_rule_num s l ≤ m := by
  induction s, l using get_empty_rule_num.induct with
  | case1 s l h ih =>
      obtain ⟨ih₁, ih₂, ih₃⟩ := ih
      rw [get_empty_rule_num, dif_pos h]
      refine ⟨by omega, ih₂, ?_⟩
      intro m hm hmem
      have hms : m ≠ s := by
        intro heq
        rw [heq] at hmem
        exact hmem h
      exact ih₃ m (by omega) hmem
  | case2 s l h =>
      rw [get_empty_rule_num, dif_neg h]
      exact ⟨le_refl s, h, fun m hm _ => hm⟩

/-- Witness for C9 on concrete occupied slots 5, 6 and 8 starting at 5: the
returned slot is at least 5, unoccupied, and no unoccupied slot at or above 5
lies below it (checked against 7). -/
theorem get_empty_rule_num_least_witness :
    5 ≤ get_empty_rule_num 5 [5, 6, 8] ∧
      get_empty_rule_num 5 [5, 6, 8] ∉ [(5 : Int), 6, 8] ∧
      get_empty_rule_num 5 [5, 6, 8] ≤ 7 :=
  ⟨(get_empty_rule_num_least 5 [5, 6, 8]).1,
    (get_empty_rule_num_least 5 [5, 6, 8]).2.1,
    (get_empty_rule_num_least 5 [5, 6, 8]).2.2 7 (by decide) (by decide)⟩

/-! ## Checker interface and command-line harness (embedded from
src/ox_mon/common/interface.py and src/ox_mon/ui/cmd_line.py) -/

/-- The exception taxonomy the harness dispatches on.  `Checker.check` has
three handlers in this order: `exceptions.OxMonAlarm`, `exceptions.
OxMonException` (a non-alarm ox_mon exception), and any other `Exception`;
the disjoint constructors mirror which handler fires. -/
inductive OxExc where
  | oxMonAlarm (msg : String)
  | oxMonFail (msg : String)
  | unexpected (msg : String)
deriving DecidableEq, Repr

/-- Outcome of `task.run()` / `self._check()`: a status string on success or
a raised exception. -/
abbrev TaskOutcome : Type := Except OxExc String

/-- One notification: (notifier type, subject, message).  `Checker.notify`
sends the same subject and message through every notifier in
`self.config.notifier`. -/
abbrev Notification : Type := String × String × String

/-- Embedded from `Checker.notify`: send the given subject and message
through each configured notifier, in order. -/
def notify (notifiers : List String) (subject msg : String) :
    List Notification :=
  notifiers.map (fun n => (n, subject, msg))

/-- Embedded from `Checker.check` (interface.py lines 68-97): run `_check`;
on `OxMonAlarm` notify with subject `ox_mon alarm for <class>` and re-raise;
on a non-alarm `OxMonException` notify with subject `Error: ox_mon failed`
and re-raise; on any other exception notify with subject
`Error: ox_mon unexpected exception` and re-raise.  Returns the propagated
outcome together with the notifications sent. -/
def checker_check (clsName utcNow : String) (notifiers : List String)
    (outcome : TaskOutcome) : TaskOutcome × List Notification :=
  match outcome with
  | .ok result => (.ok result, [])
  | .error (.oxMonAlarm m) =>
      (.error (.oxMonAlarm m),
        notify notifiers ("ox_mon alarm for " ++ clsName)
          ("ox_mon alarm for " ++ clsName ++ " at UTC " ++ utcNow ++ "\n" ++ m))
  | .error (.oxMonFail m) =>
      (.error (.oxMonFail m),
        notify notifiers "Error: ox_mon failed"
          ("Error: ox_mon failed:\n" ++ m))
  | .error (.unexpected m) =>
      (.error (.unexpected m),
        notify notifiers "Error: ox_mon unexpected exception"
          ("Error: ox_mon unexpected exception:\n" ++ m))

/-- Result of one command-line invocation: the returned status (when any),
the process exit code, and the notifications that were sent. -/
structure HarnessResult where
  result : Option String
  exitCode : Nat
  notifications : List Notification
deriving DecidableEq, Repr

/-- Embedded from `generic_command` (cmd_line.py lines 94-143) composed with
`Checker.check`: on success the task's status string is returned (exit status
0); an `OxMonAlarm` escaping `task.run()` leads to `sys.exit(1)`; any other
exception leads to `sys.exit(2)`. -/
def generic_command (clsName utcNow : String) (notifiers : List String)
    (outcome : TaskOutcome) : HarnessResult :=
  match checker_check clsName utcNow notifiers outcome with
  | (.ok r, notes) => ⟨some r, 0, notes⟩
  | (.error (.oxMonAlarm _), notes) => ⟨none, 1, notes⟩
  | (.error (.oxMonFail _), notes) => ⟨none, 2, notes⟩
  | (.error (.unexpected _), notes) => ⟨none, 2, notes⟩

/-- C8 counterexample: a task raising a non-alarm `OxMonException` exits with
code 2, but the notification sent carries the subject and message prefix
`Error: ox_mon failed`, not `Error: ox_mon unexpected exception` as the claim
states for every non-alarm exception. -/
theorem generic_command_prefix_counterexample :
    (generic_command "AptShellChecker" "2026-10-12" ["loginfo"]
        (Except.error (OxExc.oxMonFail "boom"))).exitCode = 2 ∧
    (generic_command "AptShellChecker" "2026-10-12" ["loginfo"]
        (Except.error (OxExc.oxMonFail "boom"))).notifications =
      [("loginfo", "Error: ox_mon failed", "Error: ox_mon failed:\nboom")] ∧
    ∀ note ∈ (generic_command "AptShellChecker" "2026-10-12" ["loginfo"]
        (Except.error (OxExc.oxMonFail "boom"))).notifications,
      ¬ List.IsPrefix ("Error: ox_mon unexpected exception".data)
          note.2.1.data ∧
      ¬ List.IsPrefix ("Error: ox_mon unexpected exception".data)
          note.2.2.data := by
  refine ⟨rfl, rfl, ?_⟩
  intro note hnote
  simp only [generic_command, checker_check, notify, List.map,
    List.mem_singleton] at hnote
  subst hnote
  constructor
  · intro hpre
    obtain ⟨t, ht⟩ := hpre
    have hlen := congrArg List.length ht
    simp at hlen
  · intro hpre
    obtain ⟨t, ht⟩ := hpre
    have := List.IsPrefix.getElem ⟨t, ht⟩ (by simp : 20 < ("Error: ox_mon unexpected exception".data).length)
    simp at this

/-- C8 (amended): for every task run through the command-line harness, on
success the status string is returned with exit status 0 and no notification;
on `OxMonAlarm` every configured notifier receives the alarm notification
before the exception propagates and the exit code is 1; on a non-alarm
`OxMonException` every notifier receives a notification with subject and
message prefix `Error: ox_mon failed` and the exit code is 2; on any other
exception every notifier receives a notification with the distinct prefix
`Error: ox_mon unexpected exception` and the exit code is 2. -/
theorem generic_command_dispatch (clsName utcNow : String)
    (notifiers : List String) (outcome : TaskOutcome) :
    (∀ s, outcome = Except.ok s →
      generic_command clsName utcNow notifiers outcome = ⟨some s, 0, []⟩) ∧
    (∀ m, outcome = Except.error (OxExc.oxMonAlarm m) →
      generic_command clsName utcNow notifiers outcome =
        ⟨none, 1, notify notifiers ("ox_mon alarm for " ++ clsName)
          ("ox_mon alarm for " ++ clsName ++ " at UTC " ++ utcNow ++
            "\n" ++ m)⟩) ∧
    (∀ m, outcome = Except.error (OxExc.oxMonFail m) →
      generic_command clsName utcNow notifiers outcome =
        ⟨none, 2, notify notifiers "Error: ox_mon failed"
          ("Error: ox_mon failed:\n" ++ m)⟩) ∧
    (∀ m, outcome = Except.error (OxExc.unexpected m) →
      generic_command clsName utcNow notifiers outcome =
        ⟨none, 2, notify notifiers "Error: ox_mon unexpected exception"
          ("Error: ox_mon unexpected exception:\n" ++ m)⟩) := by
  refine ⟨?_, ?_, ?_, ?_⟩ <;> intro m hm <;> subst hm <;> rfl

/-- Witness for C8 (amended) at concrete inputs: a successful run, an alarm,
and an unexpected exception dispatched through the harness with two
configured notifiers. -/
theorem generic_command_dispatch_witness :
    generic_command "C" "t" ["loginfo", "echo"] (Except.ok "fine") =
      ⟨some "fine", 0, []⟩ ∧
    generic_command "C" "t" ["loginfo", "echo"]
        (Except.error (OxExc.oxMonAlarm "bad")) =
      ⟨none, 1, notify ["loginfo", "echo"] ("ox_mon alarm for " ++ "C")
        ("ox_mon alarm for " ++ "C" ++ " at UTC " ++ "t" ++ "\n" ++ "bad")⟩ ∧
    generic_command "C" "t" ["loginfo", "echo"]
        (Except.error (OxExc.unexpected "boom")) =
      ⟨none, 2, notify ["loginfo", "echo"] "Error: ox_mon unexpected exception"
        ("Error: ox_mon unexpected exception:\n" ++ "boom")⟩ :=
  ⟨(generic_command_dispatch "C" "t" ["loginfo", "echo"]
      (Except.ok "fine")).1 "fine" rfl,
    (generic_command_dispatch "C" "t" ["loginfo", "echo"]
      (Except.error (OxExc.oxMonAlarm "bad"))).2.1 "bad" rfl,
    (generic_command_dispatch "C" "t" ["loginfo", "echo"]
      (Except.error (OxExc.unexpected "boom"))).2.2.2 "boom" rfl⟩

/-! ## SimpleFileChecker (embedded from src/ox_mon/checking/file_checker.py)

Python floats for sizes, ages and timestamps are modelled as rationals; the
numeric text inside alarm messages (which Python renders with `%.2f`) is
abstracted, since no claim depends on it. -/

/-- Result of `os.stat`, with the fields the checker reads. -/
structure FileStat where
  st_mtime : ℚ
  st_size : ℚ
deriving DecidableEq, Repr

/-- The configuration options `SimpleFileChecker` consults.  An option not
given on the command line is `none` (or `false` for the flags). -/
structure FileCheckerConfig where
  live : Bool
  dead : Bool
  min_size_kb : Option ℚ
  max_age_in_hours : Option ℚ
  max_age_in_days : Option ℚ
deriving DecidableEq, Repr

/-- How a run of `_check` can fail: an `UnexpectedFileStatus` alarm
(an `OxMonAlarm`), or a `FileNotFoundError` escaping from `os.stat` on a
nonexistent path (an unexpected exception for the harness). -/
inductive PyFailure where
  | alarm (msg : String)
  | fileNotFound (target : String)
deriving DecidableEq, Repr

/-- Embedded from `SimpleFileChecker._check_liveness` (lines 51-61): with
`--live`, a missing file is an alarm; then with `--dead`, an existing file is
an alarm. -/
def check_liveness (cfg : FileCheckerConfig) (fs : String → Option FileStat)
    (target : String) : Option String :=
  if cfg.live && (fs target).isNone then
    some ("Required file does not exist: " ++ target)
  else if cfg.dead && (fs target).isSome then
    some ("Forbidden file present: " ++ target)
  else
    none

/-- Embedded from `SimpleFileChecker._check_age` (lines 63-99, with its two
age helpers): a nonexistent file returns immediately with `stat_info = None`;
otherwise the file is statted when either max-age option is given and the
age comparisons can raise the alarm.  Returns the `stat_info` value that
`_check` passes on to `_check_size`. -/
def check_age (cfg : FileCheckerConfig) (fs : String → Option FileStat)
    (now : ℚ) (target : String) : Except String (Option FileStat) :=
  match fs target with
  | none => Except.ok none
  | some st =>
      match cfg.max_age_in_hours with
      | some maxh =>
          if (now - st.st_mtime) / 3600 > maxh then
            Except.error ("File age in hours above maximum: " ++ target)
          else
            match cfg.max_age_in_days with
            | some maxd =>
                if (now - st.st_mtime) / 86400 > maxd then
                  Except.error ("File age in days above maximum: " ++ target)
                else Except.ok (some st)
            | none => Except.ok (some st)
      | none =>
          match cfg.max_age_in_days with
          | some maxd =>
              if (now - st.st_mtime) / 86400 > maxd then
                Except.error ("File age in days above maximum: " ++ target)
              else Except.ok (some st)
          | none => Except.ok none

/-- Embedded from `SimpleFileChecker._check_size` (lines 101-111): nothing to
do when `--min_size_kb` is not given or is falsy (0); otherwise the file is
statted when `_check_age` did not stat it — which raises `FileNotFoundError`
if the target does not exist — and a too-small size is an alarm. -/
def check_size (cfg : FileCheckerConfig) (stat_info : Option FileStat)
    (fs : String → Option FileStat) (target : String) :
    Except PyFailure Unit :=
  match cfg.min_size_kb with
  | none => Except.ok ()
  | some v =>
      if v = 0 then Except.ok ()
      else
        match stat_info with
        | some st =>
            if st.st_size / 1000 < v then
              Except.error (PyFailure.alarm ("File size below minimum: " ++
                target))
            else Except.ok ()
        | none =>
            match fs target with
            | some st =>
                if st.st_size / 1000 < v then
                  Except.error (PyFailure.alarm ("File size below minimum: " ++
                    target))
                else Except.ok ()
            | none => Except.error (PyFailure.fileNotFound target)

/-- One iteration of the target loop in `SimpleFileChecker._check`
(lines 122-125): liveness, then age, then size, stopping at the first
failure. -/
def check_one (cfg : FileCheckerConfig) (fs : String → Option FileStat)
    (now : ℚ) (target : String) : Except PyFailure Unit :=
  match check_liveness cfg fs target with
  | some msg => Except.error (PyFailure.alarm msg)
  | none =>
      match check_age cfg fs now target with
      | Except.error msg => Except.error (PyFailure.alarm msg)
      | Except.ok stat_info => check_size cfg stat_info fs target

/-- The target loop of `SimpleFileChecker._check` over the accumulated list
of files to check. -/
def check_targets (cfg : FileCheckerConfig) (fs : String → Option FileStat)
    (now : ℚ) : List String → Except PyFailure Unit
  | [] => Except.ok ()
  | t :: rest =>
      match check_one cfg fs now t with
      | Except.error f => Except.error f
      | Except.ok _ => check_targets cfg fs now rest

/-- Embedded from `SimpleFileChecker._check` (lines 116-121): each
`--globtarget` pattern is expanded (its hits supplied here by the filesystem
snapshot); a pattern with no hits is an alarm, raised before any target is
checked. -/
def expand_globtargets :
    List (String × List String) → Except PyFailure (List String)
  | [] => Except.ok []
  | (pat, hits) :: rest =>
      if hits = [] then
        Except.error (PyFailure.alarm ("No hits for globtarget " ++ pat))
      else
        match expand_globtargets rest with
        | Except.error f => Except.error f
        | Except.ok more => Except.ok (hits ++ more)

/-- Embedded from `SimpleFileChecker._check` (lines 113-127): expand the glob
targets, check every file in `--target` order then glob order, and return
the status string on success. -/
def simple_file_checker_check (cfg : FileCheckerConfig)
    (fs : String → Option FileStat) (now : ℚ) (targets : List String)
    (globtargets : List (String × List String)) : Except PyFailure String :=
  match expand_globtargets globtargets with
  | Except.error f => Except.error f
  | Except.ok ghits =>
      match check_targets cfg fs now (targets ++ ghits) with
      | Except.error f => Except.error f
      | Except.ok _ => Except.ok "Status as expected."

/-- C10 counterexample: for a nonexistent target with neither `--live` nor
`--dead` set but `--min_size_kb 5` configured, the check does not succeed
with `Status as expected.`; `_check_size` calls `os.stat` on the missing
path and a `FileNotFoundError` escapes. -/
theorem simple_file_checker_min_size_counterexample :
    simple_file_checker_check
        ⟨false, false, some 5, none, none⟩ (fun _ => none) 0 ["gone.txt"] [] =
      Except.error (PyFailure.fileNotFound "gone.txt") ∧
    simple_file_checker_check
        ⟨false, false, some 5, none, none⟩ (fun _ => none) 0 ["gone.txt"] [] ≠
      Except.ok "Status as expected." := by
  refine ⟨?_, ?_⟩
  · rfl
  · intro h
    rw [show simple_file_checker_check
        ⟨false, false, some 5, none, none⟩ (fun _ => none) 0 ["gone.txt"] [] =
      Except.error (PyFailure.fileNotFound "gone.txt") from rfl] at h
    exact Except.noConfusion h

/-- C10 (amended): for every target path that does not exist, if neither
`--live` nor `--dead` is set and `--min_size_kb` is not given (or is 0), the
check succeeds with `Status as expected.` regardless of the configured
`--max-age-in-hours` and `--max-age-in-days` limits; the age checks are
skipped for a nonexistent file. -/
theorem simple_file_checker_missing_file_ok (cfg : FileCheckerConfig)
    (fs : String → Option FileStat) (now : ℚ) (target : String)
    (hmiss : fs target = none) (hlive : cfg.live = false)
    (hdead : cfg.dead = false)
    (hsize : cfg.min_size_kb = none ∨ cfg.min_size_kb = some 0) :
    simple_file_checker_check cfg fs now [target] [] =
      Except.ok "Status as expected." := by
  have hone : check_one cfg fs now target = Except.ok () := by
    unfold check_one check_liveness check_age
    rw [hmiss, hlive, hdead]
    simp only [Bool.false_and, Option.isNone_none, if_false]
    unfold check_size
    rcases hsize with h | h <;> rw [h] <;> simp
  unfold simple_file_checker_check expand_globtargets
  simp only [List.append_nil]
  unfold check_targets
  rw [hone]
  rfl

/-- Witness for C10 (amended): a missing file with both max-age options set
and no size option still yields the success status. -/
theorem simple_file_checker_missing_file_ok_witness :
    simple_file_checker_check ⟨false, false, none, some 1, some 2⟩
        (fun _ => none) 100 ["gone.txt"] [] =
      Except.ok "Status as expected." :=
  simple_file_checker_missing_file_ok ⟨false, false, none, some 1, some 2⟩
    (fun _ => none) 100 "gone.txt" rfl rfl rfl (Or.inl rfl)

end OxMon
